import Mathlib

set_option maxHeartbeats 1000000

namespace Limpeza

/-! Verification development for the Limpeza-de-dados repository.

The repository ships a loader script (`limpeza_protegido.py`) which fetches
and executes the Text Cleaner core from a remote repository.  The core
(tokenizer/classifier, table locator, table builder and renderer) is
therefore modelled here from the specification; the loader itself is
embedded from the source file. -/

/-- Modelled from the spec: the Text Cleaner tokenizer is not under src/.
Accumulator-based splitter on runs of whitespace, dropping empty tokens. -/
def tokensAux : List Char → List Char → List String
  | [], cur => if cur.isEmpty then [] else [String.mk cur.reverse]
  | c :: rest, cur =>
    if c.isWhitespace then
      if cur.isEmpty then tokensAux rest [] else String.mk cur.reverse :: tokensAux rest []
    else
      tokensAux rest (c :: cur)

/-- Modelled from the spec: `tokenize(line)` splits on runs of whitespace and
drops empty tokens; blank or whitespace-only input yields the empty sequence. -/
def tokenize (line : String) : List String :=
  tokensAux line.toList []

/-- Modelled from the spec: a sign character for the numeric grammar. -/
def isSignChar (c : Char) : Bool :=
  c == '+' || c == '-'

/-- Modelled from the spec: remove one optional leading sign character. -/
def stripSign : List Char → List Char
  | [] => []
  | c :: rest => if isSignChar c then rest else c :: rest

/-- Modelled from the spec: the optional exponent suffix of the numeric
grammar, checked on the characters remaining after the mantissa. -/
def expOk : List Char → Bool
  | [] => true
  | c :: rest =>
    (c == 'e' || c == 'E') &&
    (let ds := stripSign rest
     !ds.isEmpty && ds.all Char.isDigit)

/-- Modelled from the spec: mantissa (digits with optional fractional part,
or a leading-dot fractional form) followed by an optional exponent suffix.
The integer digits are consumed greedily; a dot then opens the fractional
part, whose digits are consumed greedily before the exponent check. -/
def mantExpOk (s : List Char) : Bool :=
  if (s.takeWhile Char.isDigit).isEmpty then
    if (s.dropWhile Char.isDigit).head? == some '.' then
      !(((s.dropWhile Char.isDigit).tail).takeWhile Char.isDigit).isEmpty &&
        expOk (((s.dropWhile Char.isDigit).tail).dropWhile Char.isDigit)
    else false
  else
    if (s.dropWhile Char.isDigit).head? == some '.' then
      expOk (((s.dropWhile Char.isDigit).tail).dropWhile Char.isDigit)
    else expOk (s.dropWhile Char.isDigit)

/-- Modelled from the spec: `is_numeric(token)` — optional sign, digits with
optional fractional part (or a leading-dot fractional form), optional
exponent suffix; a pure structural test. -/
def is_numeric (t : String) : Bool :=
  mantExpOk (stripSign t.toList)

/-- Modelled from the spec: all characters of a segment are digits. -/
def allDigits (s : List Char) : Prop :=
  ∀ c ∈ s, c.isDigit = true

/-- Modelled from the spec: an optional sign segment of the numeric grammar. -/
def signOpt (s : List Char) : Prop :=
  s = [] ∨ s = ['+'] ∨ s = ['-']

/-- Modelled from the spec: a mantissa — nonempty digits with an optional
fractional part, or a leading-dot fractional form with nonempty digits. -/
def mantissaShape (m : List Char) : Prop :=
  (∃ d f, m = d ++ f ∧ d ≠ [] ∧ allDigits d ∧
    (f = [] ∨ ∃ g, f = '.' :: g ∧ allDigits g)) ∨
  (∃ g, m = '.' :: g ∧ g ≠ [] ∧ allDigits g)

/-- Modelled from the spec: an optional exponent suffix — an exponent
letter, an optional sign, then nonempty digits. -/
def exponentShape (e : List Char) : Prop :=
  e = [] ∨ ∃ c sg ds, (c = 'e' ∨ c = 'E') ∧ signOpt sg ∧ ds ≠ [] ∧
    allDigits ds ∧ e = c :: (sg ++ ds)

/-- Modelled from the spec: the declarative numeric-token grammar — optional
sign, then a mantissa, then an optional exponent suffix. -/
def numericGrammar (s : List Char) : Prop :=
  ∃ sg m e, signOpt sg ∧ mantissaShape m ∧ exponentShape e ∧ s = sg ++ m ++ e

/-- Modelled from the spec: whether a token contains an alphabetic character
and no digit (the shape of a plausible column name). -/
def nameLikeToken (t : String) : Bool :=
  t.toList.any Char.isAlpha && !(t.toList.any Char.isDigit)

/-- Modelled from the spec: whether a token contains a colon character. -/
def hasColon (t : String) : Bool :=
  t.toList.any (fun c => c == ':')

/-- Modelled from the spec: `is_header_like(line)` is true when the line has
at least 2 tokens, at least 2 of the tokens contain an alphabetic character
and no digit, and no token contains a colon. -/
def is_header_like (line : String) : Bool :=
  let ts := tokenize line
  decide (2 ≤ ts.length) &&
  decide (2 ≤ (ts.filter nameLikeToken).length) &&
  ts.all (fun t => !hasColon t)

/-- Substring test on character lists: the needle occurs contiguously in the
haystack. -/
def subOccurs (needle hay : List Char) : Bool :=
  (List.range (hay.length + 1)).any (fun k => (hay.drop k).take needle.length == needle)

/-- Lowercased character list of a string. -/
def lowerChars (s : String) : List Char :=
  s.toList.map Char.toLower

/-- Modelled from the spec: case-insensitive substring containment, used for
the marker anchor and the log/metadata indicator test. -/
def containsCI (hay needle : String) : Bool :=
  subOccurs (lowerChars needle) (lowerChars hay)

/-- Modelled from the spec: the fixed, hand-tuned list of log/metadata
indicator substrings that mark stray narrative lines inside the data block. -/
def logIndicators : List String :=
  [":", "segment", "started", "version", "entry", "log", "calibration"]

/-- Modelled from the spec: a line is blank when it has no tokens. -/
def blankLine (l : String) : Bool :=
  (tokenize l).isEmpty

/-- Modelled from the spec: a line structurally framed as a new section
marker, starting with an opening bracket and ending with a closing one. -/
def bracketFramed (l : String) : Bool :=
  match l.toList with
  | [] => false
  | c :: rest => c == '[' && ((c :: rest).getLast? == some ']')

/-- Modelled from the spec: row harvesting stops at the first blank line or
the first bracket-framed section marker line. -/
def stopLine (l : String) : Bool :=
  blankLine l || bracketFramed l

/-- Modelled from the spec: a harvested line is skipped (not a row, not a
terminator) when it has fewer than 2 tokens or contains a log/metadata
indicator substring case-insensitively. -/
def skipLine (l : String) : Bool :=
  decide ((tokenize l).length < 2) || logIndicators.any (fun ind => containsCI l ind)

/-- Modelled from the spec: harvest the token rows of the data block, from
the data-start line on, stopping at the first stop line and skipping stray
narrative lines. -/
def harvestBlock : List String → List (List String)
  | [] => []
  | l :: rest =>
    if stopLine l then []
    else if skipLine l then harvestBlock rest
    else tokenize l :: harvestBlock rest

/-- Modelled from the spec: column-count reconciliation of one row against
the target width: exact match kept, exactly one short padded with one empty
cell, longer truncated, more than one short discarded. -/
def reconcile (w : Nat) (row : List String) : Option (List String) :=
  if row.length = w then some row
  else if row.length + 1 = w then some (row ++ [""])
  else if w < row.length then some (row.take w)
  else none

/-- Modelled from the spec: the line at an offset, the empty string when the
offset is out of range (an out-of-range sample then fails every token test). -/
def lineAt (lines : List String) (i : Nat) : String :=
  lines.getD i ""

/-- Modelled from the spec: a sampled line passes when it has at least 2
tokens and at least 60 percent of its tokens classify as numeric. -/
def numericLineOk (line : String) : Bool :=
  let ts := tokenize line
  decide (2 ≤ ts.length) &&
  decide (3 * ts.length ≤ 5 * (ts.filter is_numeric).length)

/-- Modelled from the spec: validation of a tentative data start, sampling
the two lines at the data offset and the one after it. -/
def validPairAt (lines : List String) (d : Nat) : Bool :=
  numericLineOk (lineAt lines d) && numericLineOk (lineAt lines (d + 1))

/-- Modelled from the spec: a position qualifies as a header when its line is
header-like and the two lines two and three further down validate. -/
def headerValidAt (lines : List String) (j : Nat) : Bool :=
  is_header_like (lineAt lines j) && validPairAt lines (j + 2)

/-- First index at or after a start that satisfies a predicate, with an
explicit fuel bound; used by both locator phases. -/
def firstFromAux (p : Nat → Bool) : Nat → Nat → Option Nat
  | _, 0 => none
  | i, fuel + 1 => if p i then some i else firstFromAux p (i + 1) fuel

/-- Modelled from the spec: scan forward from an anchor, line by line, for
the first header position that passes validation. -/
def scanFrom (lines : List String) (a : Nat) : Option Nat :=
  firstFromAux (headerValidAt lines) a (lines.length - a)

/-- Modelled from the spec: the anchor list — the index of every line
containing the case-insensitive marker substring, then index 0 appended as a
final fallback anchor. -/
def anchors (lines : List String) (marker : String) : List Nat :=
  (List.range lines.length).filter (fun i => containsCI (lineAt lines i) marker) ++ [0]

/-- First hit of an option-valued function along a list, in list order. -/
def firstHit (f : Nat → Option Nat) : List Nat → Option Nat
  | [] => none
  | a :: rest =>
    match f a with
    | some b => some b
    | none => firstHit f rest

/-- Modelled from the spec: the marker-anchored phase — the first
anchor/position combination that passes validation wins. -/
def markerPhaseResult (lines : List String) (marker : String) : Option Nat :=
  firstHit (fun a => scanFrom lines a) (anchors lines marker)

/-- Modelled from the spec: token count of the line at an offset. -/
def tokenCount (lines : List String) (i : Nat) : Nat :=
  (tokenize (lineAt lines i)).length

/-- Modelled from the spec: token counts within plus or minus one. -/
def widthNear (a b : Nat) : Bool :=
  decide (a ≤ b + 1) && decide (b ≤ a + 1)

/-- Modelled from the spec: a numeric-block fallback candidate qualifies when
it passes the numeric test and each of the next 5 lines passes it too with a
token count within plus or minus one of the candidate. -/
def fallbackOk (lines : List String) (i : Nat) : Bool :=
  numericLineOk (lineAt lines i) &&
  (List.range 5).all (fun k =>
    numericLineOk (lineAt lines (i + 1 + k)) &&
    widthNear (tokenCount lines (i + 1 + k)) (tokenCount lines i))

/-- Modelled from the spec: the numeric-block fallback phase scans every line
as a candidate data start; the first qualifying candidate wins. -/
def fallbackScan (lines : List String) : Option Nat :=
  firstFromAux (fallbackOk lines) 0 lines.length

/-- Modelled from the spec: the handoff artifact between Locator and Builder,
a triple of optional line offsets. -/
structure TableLocation where
  header : Option Nat
  units : Option Nat
  data : Option Nat
deriving DecidableEq, Repr

/-- Modelled from the spec: `locate(lines)` — marker-anchored search first,
then the numeric-block fallback, else the all-absent sentinel. -/
def locate (lines : List String) (marker : String) : TableLocation :=
  match markerPhaseResult lines marker with
  | some h => ⟨some h, some (h + 1), some (h + 2)⟩
  | none =>
    match fallbackScan lines with
    | some d => ⟨none, none, some d⟩
    | none => ⟨none, none, none⟩

/-- Modelled from the spec: widest harvested row, used for synthetic column
names when no header line is present. -/
def maxWidth (raws : List (List String)) : Nat :=
  raws.foldr (fun r m => max r.length m) 0

/-- Modelled from the spec: synthetic column names col1..colN. -/
def syntheticCols (n : Nat) : List String :=
  (List.range n).map (fun i => "col" ++ toString (i + 1))

/-- Modelled from the spec: `harvest_rows` — harvest the data block at the
located offsets, choose column names (header tokens when a header is
present, synthetic names otherwise) and reconcile every raw row against the
column count; an absent data offset yields empty columns and an empty row
list. -/
def harvest_rows (lines : List String) (loc : TableLocation) :
    List String × List (List String) :=
  match loc.data with
  | none => ([], [])
  | some d =>
    let raws := harvestBlock (lines.drop d)
    let cols :=
      match loc.header with
      | some h => tokenize (lineAt lines h)
      | none => syntheticCols (maxWidth raws)
    (cols, raws.filterMap (reconcile cols.length))

/-- Modelled from the spec: one rendered cell — when the decimal-substitution
option is on, every comma is replaced with a period. -/
def renderCell (dc : Bool) (cell : String) : String :=
  if dc then String.mk (cell.toList.map (fun c => if c == ',' then '.' else c)) else cell

/-- Join a list of strings with a separator. -/
def joinWith (sep : String) : List String → String
  | [] => ""
  | [x] => x
  | x :: y :: xs => x ++ sep ++ joinWith sep (y :: xs)

/-- Modelled from the spec: `render(column_names, rows, separator,
include_header, decimal_comma_to_dot)` — the header line when requested and
non-empty, then each row joined with the separator, one newline per line. -/
def render (cols : List String) (rows : List (List String)) (sep : String)
    (includeHeader : Bool) (dc : Bool) : String :=
  let headerPart := if includeHeader && !cols.isEmpty then joinWith sep cols ++ "\n" else ""
  headerPart ++ rows.foldr (fun r acc => joinWith sep (r.map (renderCell dc)) ++ "\n" ++ acc) ""

/-- The spec's Scenario A input: a section marker, a header line, a units
line, two data lines and a blank line. -/
def scenarioA : List String :=
  ["[step]", "Time Temperature Weight", "s C mg", "0.0 25.0 10.00", "1.0 25.1 9.99", ""]

/-- The spec's Scenario B shape: no marker and no header line, but six
consecutive numeric lines of consistent width. -/
def scenarioB : List String :=
  ["meta", "1 2", "1 2", "1 2", "1 2", "1 2", "1 2"]

/-! Embedding of the loader `src/limpeza_protegido.py`.  Environment
variables, the external world (git availability, clone outcomes, remote file
presence, execution success) and the observable side effects are explicit. -/

/-- Environment variables read by `load_from_private_repo`; a variable that
is unset reads as the empty string (`os.environ.get(name, "")`). -/
structure Env where
  github_token : String
  github_user : String
  repo_name : String
deriving DecidableEq, Repr

/-- Outcome of one `git clone` subprocess call: success, non-zero return
code, `subprocess.TimeoutExpired`, or another raised exception. -/
inductive CloneRes where
  | ok
  | fail
  | timeout
  | exc
deriving DecidableEq, Repr

/-- The external behavior met by one call of `load_from_private_repo`. -/
structure World where
  gitAvailable : Bool
  clone1 : CloneRes
  clone2 : CloneRes
  mainFileExists : Bool
  execOk : Bool
  requestsResult : Bool
deriving DecidableEq, Repr

/-- Observable side effects of the loader, in execution order. -/
inductive Action where
  | showSetup
  | checkGit
  | mkdtemp
  | gitClone
  | removeTemp
  | execMain
  | apiRequest
deriving DecidableEq, Repr

/-- Embeds `load_with_requests`: the GitHub API fallback makes one network
request and reports the outcome the world assigns to it. -/
def load_with_requests (w : World) : Bool × List Action :=
  (w.requestsResult, [Action.apiRequest])

/-- Embeds the tail of the try block after a successful clone: check for the
main file, then execute it (lines 154-176 of `limpeza_protegido.py`). -/
def afterClone (w : World) (pre : List Action) : Bool × List Action :=
  if !w.mainFileExists then (false, pre)
  else if w.execOk then (true, pre ++ [Action.execMain])
  else (false, pre ++ [Action.execMain])

/-- Embeds the try block of `load_from_private_repo` (lines 119-183): clone,
retry without token on failure when a token was set, fall back to the GitHub
API on failure or on a caught exception, else run the cloned main file. -/
def tryBody (env : Env) (w : World) : Bool × List Action :=
  match w.clone1 with
  | CloneRes.timeout =>
    ((load_with_requests w).1, Action.gitClone :: (load_with_requests w).2)
  | CloneRes.exc =>
    ((load_with_requests w).1, Action.gitClone :: (load_with_requests w).2)
  | CloneRes.fail =>
    if env.github_token ≠ "" then
      match w.clone2 with
      | CloneRes.ok => afterClone w [Action.gitClone, Action.gitClone]
      | _ =>
        ((load_with_requests w).1,
          Action.gitClone :: Action.gitClone :: (load_with_requests w).2)
    else
      ((load_with_requests w).1, Action.gitClone :: (load_with_requests w).2)
  | CloneRes.ok => afterClone w [Action.gitClone]

/-- Embeds `load_from_private_repo` (lines 100-188): the missing-variable
guard, the git availability check, then the try block flanked by mkdtemp and
the finally-block temp-directory removal. -/
def load_from_private_repo (env : Env) (w : World) : Bool × List Action :=
  if env.github_user = "" || env.repo_name = "" then
    (false, [Action.showSetup])
  else if !w.gitAvailable then
    ((load_with_requests w).1, Action.checkGit :: (load_with_requests w).2)
  else
    ((tryBody env w).1,
      Action.checkGit :: Action.mkdtemp :: ((tryBody env w).2 ++ [Action.removeTemp]))

/-- Whether the temporary clone directory still exists after a trace of
effects: created by mkdtemp, destroyed by the finally-block removal. -/
def tempAfter (tr : List Action) : Bool :=
  tr.foldl (fun s a =>
    match a with
    | Action.mkdtemp => true
    | Action.removeTemp => false
    | _ => s) false

/-! Theorems. -/

/-- A trace whose last effect removes the temporary directory leaves none
behind, whatever came before. -/
theorem tempAfter_append_remove (l : List Action) :
    tempAfter (l ++ [Action.removeTemp]) = false := by
  simp [tempAfter, List.foldl_append]

/-- C1: for every target width W and every harvested row, a row of length
exactly W is kept unchanged; a row of length W-1 is padded with exactly one
empty cell to length W; a row of length W+k (k ≥ 1) is truncated to length
W; and a row of length at most W-2 is discarded. -/
theorem reconcile_law (w : Nat) (row : List String) :
    (row.length = w → reconcile w row = some row) ∧
    (row.length + 1 = w →
      reconcile w row = some (row ++ [""]) ∧ (row ++ [""]).length = w) ∧
    (∀ k, 1 ≤ k → row.length = w + k →
      reconcile w row = some (row.take w) ∧ (row.take w).length = w) ∧
    (row.length + 2 ≤ w → reconcile w row = none) := by
  refine ⟨?_, ?_, ?_, ?_⟩
  · intro h; simp [reconcile, h]
  · intro h
    have h1 : ¬ row.length = w := by omega
    refine ⟨by simp [reconcile, h, h1], by simp; omega⟩
  · intro k hk h
    have h1 : ¬ row.length = w := by omega
    have h2 : ¬ row.length + 1 = w := by omega
    have h3 : w < row.length := by omega
    refine ⟨by simp [reconcile, h1, h2, h3], by simp [List.length_take]; omega⟩
  · intro h
    have h1 : ¬ row.length = w := by omega
    have h2 : ¬ row.length + 1 = w := by omega
    have h3 : ¬ w < row.length := by omega
    simp [reconcile, h1, h2, h3]

/-- Witness for C1: the four reconciliation cases at width 3. -/
theorem reconcile_law_witness :
    reconcile 3 ["a", "b", "c"] = some ["a", "b", "c"] ∧
    reconcile 3 ["a", "b"] = some ["a", "b", ""] ∧
    reconcile 3 ["a", "b", "c", "d"] = some ["a", "b", "c"] ∧
    reconcile 3 ["a"] = none := by
  refine ⟨(reconcile_law 3 ["a", "b", "c"]).1 (by decide),
    ((reconcile_law 3 ["a", "b"]).2.1 (by decide)).1, ?_,
    (reconcile_law 3 ["a"]).2.2.2 (by decide)⟩
  have h := ((reconcile_law 3 ["a", "b", "c", "d"]).2.2.1 1 (by decide) (by decide)).1
  simpa using h

/-- C4: harvesting never consumes a line at or past the first stop line (a
blank line or a bracket-framed section marker), whatever follows it. -/
theorem harvest_stops_at_boundary (pre : List String) (l : String)
    (post : List String) (h : stopLine l = true) :
    harvestBlock (pre ++ l :: post) = harvestBlock pre := by
  induction pre with
  | nil => simp [harvestBlock, h]
  | cons x xs ih =>
    simp only [List.cons_append, harvestBlock, List.append_eq, ih]

/-- Witness for C4: a blank line ends harvesting even though a numeric line
follows it. -/
theorem harvest_stops_at_boundary_witness :
    harvestBlock (["1 2"] ++ "" :: ["3 4"]) = harvestBlock ["1 2"] ∧
    harvestBlock ["1 2"] = [["1", "2"]] :=
  ⟨harvest_stops_at_boundary ["1 2"] "" ["3 4"] (by decide), by decide⟩

/-- C6: `is_header_like` holds exactly when the line has at least 2 tokens,
at least 2 name-like tokens (alphabetic, digit-free) and no token with a
colon; in particular a line with at most one token is never header-like. -/
theorem is_header_like_spec (line : String) :
    (is_header_like line = true ↔
      2 ≤ (tokenize line).length ∧
      2 ≤ ((tokenize line).filter nameLikeToken).length ∧
      ∀ t ∈ tokenize line, hasColon t = false) ∧
    ((tokenize line).length ≤ 1 → is_header_like line = false) := by
  constructor
  · simp [is_header_like, List.all_eq_true, and_assoc]
  · intro h
    have h1 : ¬ (2 ≤ (tokenize line).length) := by omega
    simp [is_header_like, h1]

/-- Witness for C6: a one-token line is rejected, a two-name line accepted. -/
theorem is_header_like_spec_witness :
    is_header_like "onetoken" = false ∧ is_header_like "Time Temp" = true :=
  ⟨(is_header_like_spec "onetoken").2 (by decide),
    (is_header_like_spec "Time Temp").1.mpr (by decide)⟩

/-- C8: rendering is deterministic — two invocations of `render` on
identical column names, rows and formatting configuration produce identical
output text. -/
theorem render_deterministic (cols1 cols2 : List String)
    (rows1 rows2 : List (List String)) (sep1 sep2 : String)
    (ih1 ih2 dc1 dc2 : Bool) (hc : cols1 = cols2) (hr : rows1 = rows2)
    (hs : sep1 = sep2) (hh : ih1 = ih2) (hd : dc1 = dc2) :
    render cols1 rows1 sep1 ih1 dc1 = render cols2 rows2 sep2 ih2 dc2 := by
  subst hc hr hs hh hd
  rfl

/-- Witness for C8: a second render of the same data and configuration is
byte-identical. -/
theorem render_deterministic_witness :
    render ["A", "B"] [["1", "2,5"]] ";" true true =
      render ["A", "B"] [["1", "2,5"]] ";" true true :=
  render_deterministic ["A", "B"] ["A", "B"] [["1", "2,5"]] [["1", "2,5"]]
    ";" ";" true true true true rfl rfl rfl rfl rfl

/-- A nonempty list is not isEmpty. -/
theorem isEmpty_false_of_ne_nil {α : Type} (l : List α) (h : l ≠ []) :
    l.isEmpty = false := by
  cases l with
  | nil => exact absurd rfl h
  | cons a b => rfl

/-- A list that is not isEmpty is nonempty. -/
theorem ne_nil_of_isEmpty_false {α : Type} (l : List α) (h : l.isEmpty = false) :
    l ≠ [] := by
  intro hc
  rw [hc] at h
  simp at h

/-- The head of the remainder of a greedy scan never satisfies the
predicate. -/
theorem dropWhile_head_not (p : Char → Bool) :
    ∀ (l : List Char) (c : Char), (l.dropWhile p).head? = some c → p c = false := by
  intro l
  induction l with
  | nil => intro c hc; simp at hc
  | cons x xs ih =>
    intro c hc
    cases hx : p x with
    | true => rw [List.dropWhile_cons_of_pos hx] at hc; exact ih c hc
    | false =>
      rw [List.dropWhile_cons_of_neg (by simp [hx])] at hc
      simp only [List.head?_cons, Option.some_inj] at hc
      subst hc
      exact hx

/-- A greedy scan over a block of satisfying characters followed by a
non-satisfying boundary splits exactly at the boundary. -/
theorem takeWhile_all_append (p : Char → Bool) (e : List Char)
    (he : ∀ c, e.head? = some c → p c = false) :
    ∀ d : List Char, (∀ c ∈ d, p c = true) →
      (d ++ e).takeWhile p = d ∧ (d ++ e).dropWhile p = e := by
  intro d
  induction d with
  | nil =>
    intro _
    simp only [List.nil_append]
    cases e with
    | nil => simp
    | cons c cs =>
      have hc := he c rfl
      exact ⟨List.takeWhile_cons_of_neg (by simp [hc]),
        List.dropWhile_cons_of_neg (by simp [hc])⟩
  | cons x xs ih =>
    intro hd
    have hx : p x = true := hd x (List.mem_cons_self x xs)
    have ih2 := ih (fun c hc => hd c (List.mem_cons_of_mem x hc))
    rw [List.cons_append]
    exact ⟨by rw [List.takeWhile_cons_of_pos hx, ih2.1],
      by rw [List.dropWhile_cons_of_pos hx, ih2.2]⟩

/-- A digit character is not a sign character. -/
theorem digit_not_sign (c : Char) (h : c.isDigit = true) : isSignChar c = false := by
  by_cases h1 : c = '+'
  · subst h1; exact absurd h (by decide)
  · by_cases h2 : c = '-'
    · subst h2; exact absurd h (by decide)
    · simp [isSignChar, h1, h2]

/-- The exponent checker recognises exactly the exponent shapes. -/
theorem expOk_iff (e : List Char) : expOk e = true ↔ exponentShape e := by
  constructor
  · intro h
    cases e with
    | nil => exact Or.inl rfl
    | cons c rest =>
      simp only [expOk, Bool.and_eq_true, Bool.or_eq_true, beq_iff_eq,
        Bool.not_eq_true', List.all_eq_true] at h
      obtain ⟨hc, hne0, hall⟩ := h
      have hne : stripSign rest ≠ [] := ne_nil_of_isEmpty_false _ hne0
      cases rest with
      | nil => simp [stripSign] at hne
      | cons c2 r2 =>
        cases hs : isSignChar c2 with
        | true =>
          rw [show stripSign (c2 :: r2) = r2 from by simp [stripSign, hs]] at hne hall
          have hc2 : c2 = '+' ∨ c2 = '-' := by simpa [isSignChar] using hs
          refine Or.inr ⟨c, [c2], r2, hc, ?_, hne, hall, rfl⟩
          rcases hc2 with rfl | rfl
          · exact Or.inr (Or.inl rfl)
          · exact Or.inr (Or.inr rfl)
        | false =>
          rw [show stripSign (c2 :: r2) = c2 :: r2 from by simp [stripSign, hs]] at hne hall
          exact Or.inr ⟨c, [], c2 :: r2, hc, Or.inl rfl, hne, hall, rfl⟩
  · intro h
    rcases h with rfl | ⟨c, sg, ds, hc, hsg, hne, hds, rfl⟩
    · rfl
    · simp only [expOk, Bool.and_eq_true, Bool.or_eq_true, beq_iff_eq]
      refine ⟨hc, ?_⟩
      have hstrip : stripSign (sg ++ ds) = ds := by
        rcases hsg with rfl | rfl | rfl
        · cases ds with
          | nil => exact absurd rfl hne
          | cons d1 dr =>
            have hd1 : isSignChar d1 = false :=
              digit_not_sign d1 (hds d1 (List.mem_cons_self d1 dr))
            simp [stripSign, hd1]
        · simp [stripSign, isSignChar]
        · simp [stripSign, isSignChar]
      rw [hstrip]
      exact ⟨by rw [isEmpty_false_of_ne_nil _ hne]; rfl, List.all_eq_true.mpr hds⟩

/-- The head of an exponent segment never tests as a dot. -/
theorem exponentShape_dot_test {e : List Char} (he : exponentShape e) :
    (e.head? == some '.') = false := by
  rcases he with rfl | ⟨c0, sg, ds, hc0, hsg, hne, hds, rfl⟩
  · rfl
  · rcases hc0 with rfl | rfl <;> simp only [List.head?_cons] <;> decide

/-- The head of an exponent segment is never a digit. -/
theorem exponentShape_head_not_digit {e : List Char} (he : exponentShape e) :
    ∀ c, e.head? = some c → c.isDigit = false := by
  rcases he with rfl | ⟨c0, sg, ds, hc0, hsg, hne, hds, rfl⟩
  · intro c hc; simp at hc
  · intro c hc
    simp only [List.head?_cons, Option.some_inj] at hc
    subst hc
    rcases hc0 with rfl | rfl <;> decide

/-- Completeness of the mantissa-exponent checker: every decomposition into
a mantissa shape and an exponent shape passes it. -/
theorem mantExpOk_complete (m e : List Char) (hm : mantissaShape m)
    (he : exponentShape e) : mantExpOk (m ++ e) = true := by
  have hehead := exponentShape_head_not_digit he
  have hdot := exponentShape_dot_test he
  have hexp := (expOk_iff e).mpr he
  rcases hm with ⟨d, f, rfl, hdne, hdall, hf⟩ | ⟨g, rfl, hgne, hgall⟩
  · rcases hf with rfl | ⟨g, rfl, hgall⟩
    · have hsplit := takeWhile_all_append Char.isDigit e hehead d hdall
      rw [List.append_nil]
      cases d with
      | nil => exact absurd rfl hdne
      | cons d1 dr =>
        have hd1 : d1.isDigit = true := hdall d1 (List.mem_cons_self d1 dr)
        have hdot2 : e.head? ≠ some '.' := by simpa using hdot
        simp only [List.cons_append] at hsplit
        simp [mantExpOk, hsplit.1, hsplit.2, hd1, hdot2, hexp]
    · have hsplit2 := takeWhile_all_append Char.isDigit e hehead g hgall
      have hdothead : ∀ c, ('.' :: (g ++ e)).head? = some c → Char.isDigit c = false := by
        intro c hc
        simp only [List.head?_cons, Option.some_inj] at hc
        subst hc
        decide
      have houter := takeWhile_all_append Char.isDigit ('.' :: (g ++ e)) hdothead d hdall
      have hass : (d ++ '.' :: g) ++ e = d ++ '.' :: (g ++ e) := by simp
      rw [hass]
      cases d with
      | nil => exact absurd rfl hdne
      | cons d1 dr =>
        have hd1 : d1.isDigit = true := hdall d1 (List.mem_cons_self d1 dr)
        simp only [List.cons_append] at houter
        simp [mantExpOk, houter.1, houter.2, hsplit2.1, hsplit2.2, hd1, hexp]
  · have hsplit := takeWhile_all_append Char.isDigit e hehead g hgall
    have hgE : g.isEmpty = false := isEmpty_false_of_ne_nil g hgne
    have hass : ('.' :: g) ++ e = '.' :: (g ++ e) := rfl
    rw [hass]
    have htw : ('.' :: (g ++ e)).takeWhile Char.isDigit = [] :=
      List.takeWhile_cons_of_neg (by decide)
    have hdw : ('.' :: (g ++ e)).dropWhile Char.isDigit = '.' :: (g ++ e) :=
      List.dropWhile_cons_of_neg (by decide)
    simp [mantExpOk, htw, hdw, hsplit.1, hsplit.2, hexp, hgE]

/-- Soundness of the mantissa-exponent checker: anything it accepts
decomposes into a mantissa shape and an exponent shape. -/
theorem mantExpOk_sound (s : List Char) (h : mantExpOk s = true) :
    ∃ m e, s = m ++ e ∧ mantissaShape m ∧ exponentShape e := by
  have hsplit : s.takeWhile Char.isDigit ++ s.dropWhile Char.isDigit = s := by simp
  have hdall : ∀ c ∈ s.takeWhile Char.isDigit, Char.isDigit c = true :=
    fun c hc => List.mem_takeWhile_imp hc
  simp only [mantExpOk] at h
  by_cases hde : (s.takeWhile Char.isDigit).isEmpty = true
  · rw [if_pos hde] at h
    have hd0 : s.takeWhile Char.isDigit = [] := by
      cases hcc : s.takeWhile Char.isDigit with
      | nil => rfl
      | cons a b => rw [hcc] at hde; simp at hde
    by_cases hdot : ((s.dropWhile Char.isDigit).head? == some '.') = true
    · rw [if_pos hdot] at h
      cases hr : s.dropWhile Char.isDigit with
      | nil => rw [hr] at hdot; simp at hdot
      | cons c0 r2 =>
        have hc0 : c0 = '.' := by rw [hr] at hdot; simpa using hdot
        subst hc0
        rw [hr] at h
        simp only [List.tail_cons, Bool.and_eq_true, Bool.not_eq_true'] at h
        obtain ⟨hfne, hexp⟩ := h
        have hr2 : r2.takeWhile Char.isDigit ++ r2.dropWhile Char.isDigit = r2 := by simp
        refine ⟨'.' :: r2.takeWhile Char.isDigit, r2.dropWhile Char.isDigit, ?_, ?_,
          (expOk_iff _).mp hexp⟩
        · rw [← hsplit, hd0, hr, List.nil_append, List.cons_append, hr2]
        · exact Or.inr ⟨r2.takeWhile Char.isDigit, rfl,
            ne_nil_of_isEmpty_false _ hfne, fun c hc => List.mem_takeWhile_imp hc⟩
    · rw [if_neg hdot] at h
      exact absurd h (by simp)
  · rw [if_neg hde] at h
    have hdne : s.takeWhile Char.isDigit ≠ [] := by
      intro hc
      rw [hc] at hde
      exact hde rfl
    by_cases hdot : ((s.dropWhile Char.isDigit).head? == some '.') = true
    · rw [if_pos hdot] at h
      cases hr : s.dropWhile Char.isDigit with
      | nil => rw [hr] at hdot; simp at hdot
      | cons c0 r2 =>
        have hc0 : c0 = '.' := by rw [hr] at hdot; simpa using hdot
        subst hc0
        rw [hr] at h
        simp only [List.tail_cons] at h
        have hr2 : r2.takeWhile Char.isDigit ++ r2.dropWhile Char.isDigit = r2 := by simp
        refine ⟨s.takeWhile Char.isDigit ++ '.' :: r2.takeWhile Char.isDigit,
          r2.dropWhile Char.isDigit, ?_, ?_, (expOk_iff _).mp h⟩
        · calc s = s.takeWhile Char.isDigit ++ s.dropWhile Char.isDigit := hsplit.symm
          _ = s.takeWhile Char.isDigit ++ ('.' :: r2) := by rw [hr]
          _ = (s.takeWhile Char.isDigit ++ '.' :: r2.takeWhile Char.isDigit) ++
              r2.dropWhile Char.isDigit := by
            rw [List.append_assoc, List.cons_append, hr2]
        · exact Or.inl ⟨s.takeWhile Char.isDigit, '.' :: r2.takeWhile Char.isDigit, rfl,
            hdne, hdall, Or.inr ⟨r2.takeWhile Char.isDigit, rfl,
              fun c hc => List.mem_takeWhile_imp hc⟩⟩
    · rw [if_neg hdot] at h
      exact ⟨s.takeWhile Char.isDigit, s.dropWhile Char.isDigit, hsplit.symm,
        Or.inl ⟨s.takeWhile Char.isDigit, [], (List.append_nil _).symm, hdne, hdall,
          Or.inl rfl⟩,
        (expOk_iff _).mp h⟩

/-- The numeric classifier agrees with the declarative grammar. -/
theorem is_numeric_iff_grammar (t : String) :
    is_numeric t = true ↔ numericGrammar t.toList := by
  constructor
  · intro h
    unfold is_numeric at h
    cases hs : t.toList with
    | nil => rw [hs] at h; exact absurd h (by decide)
    | cons c rest =>
      rw [hs] at h
      by_cases hc : isSignChar c = true
      · rw [show stripSign (c :: rest) = rest from by simp [stripSign, hc]] at h
        obtain ⟨m, e, hme, hm, hex⟩ := mantExpOk_sound rest h
        have hcs : c = '+' ∨ c = '-' := by simpa [isSignChar] using hc
        refine ⟨[c], m, e, ?_, hm, hex, by rw [hme]; rfl⟩
        rcases hcs with rfl | rfl
        · exact Or.inr (Or.inl rfl)
        · exact Or.inr (Or.inr rfl)
      · rw [show stripSign (c :: rest) = c :: rest from by simp [stripSign, hc]] at h
        obtain ⟨m, e, hme, hm, hex⟩ := mantExpOk_sound (c :: rest) h
        exact ⟨[], m, e, Or.inl rfl, hm, hex, hme⟩
  · rintro ⟨sg, m, e, hsg, hm, hex, hs⟩
    unfold is_numeric
    rw [hs]
    have hmhead : ∃ c0 m2, m = c0 :: m2 ∧ isSignChar c0 = false := by
      rcases hm with ⟨d, f, rfl, hdne, hdall, _⟩ | ⟨g, rfl, _, _⟩
      · cases d with
        | nil => exact absurd rfl hdne
        | cons d1 dr =>
          exact ⟨d1, dr ++ f, rfl,
            digit_not_sign d1 (hdall d1 (List.mem_cons_self d1 dr))⟩
      · exact ⟨'.', g, rfl, by decide⟩
    obtain ⟨c0, m2, hm2, hc0⟩ := hmhead
    have hstrip : stripSign (sg ++ m ++ e) = m ++ e := by
      rcases hsg with rfl | rfl | rfl
      · rw [List.nil_append, hm2, List.cons_append]
        simp [stripSign, hc0]
      · simp [stripSign, isSignChar]
      · simp [stripSign, isSignChar]
    rw [hstrip]
    exact mantExpOk_complete m e hm hex

/-- C5: `is_numeric` accepts exactly the tokens of the numeric grammar —
optional sign, digits with optional fractional part (or a leading-dot
fractional form), optional exponent suffix — and in particular accepts
"-12.5e-3", "+7", ".5" and rejects "12.5.3", "abc", "1,5". -/
theorem is_numeric_grammar :
    (∀ t : String, is_numeric t = true ↔ numericGrammar t.toList) ∧
    is_numeric "-12.5e-3" = true ∧ is_numeric "+7" = true ∧
    is_numeric ".5" = true ∧ is_numeric "12.5.3" = false ∧
    is_numeric "abc" = false ∧ is_numeric "1,5" = false :=
  ⟨is_numeric_iff_grammar, by decide, by decide, by decide, by decide,
    by decide, by decide⟩

/-- Witness for C5: the grammar membership of a concrete accepted token,
obtained through the equivalence. -/
theorem is_numeric_grammar_witness : numericGrammar ("7.5".toList) :=
  (is_numeric_grammar.1 "7.5").mp (by decide)

/-- Soundness of the bounded forward scan: a hit is at or after the start,
satisfies the predicate, and is the first such position. -/
theorem firstFromAux_spec (p : Nat → Bool) :
    ∀ (fuel i h : Nat), firstFromAux p i fuel = some h →
      i ≤ h ∧ p h = true ∧ ∀ k, i ≤ k → k < h → p k = false := by
  intro fuel
  induction fuel with
  | zero => intro i h hf; simp [firstFromAux] at hf
  | succ n ih =>
    intro i h hf
    by_cases hp : p i = true
    · simp [firstFromAux, hp] at hf
      subst hf
      exact ⟨Nat.le_refl i, hp, fun k hk1 hk2 => absurd (Nat.lt_of_le_of_lt hk1 hk2) (Nat.lt_irrefl i)⟩
    · simp only [firstFromAux, hp, if_false] at hf
      obtain ⟨h1, h2, h3⟩ := ih (i + 1) h hf
      refine ⟨by omega, h2, fun k hk1 hk2 => ?_⟩
      by_cases hk : k = i
      · subst hk
        exact Bool.not_eq_true _ ▸ eq_false_of_ne_true hp
      · exact h3 k (by omega) hk2

/-- A first hit along a list splits the list at the hit, every earlier
element mapping to none. -/
theorem firstHit_first (f : Nat → Option Nat) :
    ∀ (l : List Nat) (b : Nat), firstHit f l = some b →
      ∃ pre a post, l = pre ++ a :: post ∧ f a = some b ∧ ∀ x ∈ pre, f x = none := by
  intro l
  induction l with
  | nil => intro b hb; simp [firstHit] at hb
  | cons x xs ih =>
    intro b hb
    cases hx : f x with
    | some c =>
      simp only [firstHit, hx] at hb
      exact ⟨[], x, xs, rfl, hx.trans hb, by simp⟩
    | none =>
      simp only [firstHit, hx] at hb
      obtain ⟨pre, a, post, he, hfa, hpre⟩ := ih b hb
      refine ⟨x :: pre, a, post, by rw [he]; rfl, hfa, ?_⟩
      intro y hy
      rcases List.mem_cons.mp hy with h | h
      · subst h; exact hx
      · exact hpre y h

/-- C2: whenever the marker-anchored phase returns a header index, the
located triple is (header, header+1, header+2), the header line is
header-like with a validating data pair two lines down, and the index is the
first passing position at or after one of the anchors; and on the Scenario A
input the Locator returns offsets 1, 2, 3 and the Builder yields the three
column names and two rows. -/
theorem marker_phase_first_match :
    (∀ (lines : List String) (marker : String) (h : Nat),
      markerPhaseResult lines marker = some h →
        locate lines marker = ⟨some h, some (h + 1), some (h + 2)⟩ ∧
        headerValidAt lines h = true ∧
        ∃ a, a ∈ anchors lines marker ∧ scanFrom lines a = some h ∧ a ≤ h ∧
          ∀ j, a ≤ j → j < h → headerValidAt lines j = false) ∧
    (locate scenarioA "[step]" = ⟨some 1, some 2, some 3⟩ ∧
      harvest_rows scenarioA (locate scenarioA "[step]") =
        (["Time", "Temperature", "Weight"],
          [["0.0", "25.0", "10.00"], ["1.0", "25.1", "9.99"]])) := by
  constructor
  · intro lines marker h hm
    obtain ⟨pre, a, post, he, hfa, _⟩ := firstHit_first _ _ _ hm
    obtain ⟨h1, h2, h3⟩ := firstFromAux_spec (headerValidAt lines) (lines.length - a) a h hfa
    exact ⟨by simp [locate, hm], h2,
      ⟨a, by rw [he]; exact List.mem_append_right _ (List.mem_cons_self a post),
        hfa, h1, h3⟩⟩
  · exact ⟨by decide, by decide⟩

/-- Witness for C2: the Scenario A header index is produced by the marker
phase and located as (1, 2, 3). -/
theorem marker_phase_first_match_witness :
    locate scenarioA "[step]" = ⟨some 1, some 2, some 3⟩ ∧
    headerValidAt scenarioA 1 = true :=
  ⟨(marker_phase_first_match.1 scenarioA "[step]" 1 (by decide)).1,
    (marker_phase_first_match.1 scenarioA "[step]" 1 (by decide)).2.1⟩

/-- C3: when the marker-anchored phase finds nothing, the Locator falls back
to the numeric-block scan: the first qualifying candidate becomes the data
offset with header and units absent, and when no candidate qualifies all
three offsets are absent. -/
theorem fallback_phase_spec (lines : List String) (marker : String)
    (hm : markerPhaseResult lines marker = none) :
    (∀ d, fallbackScan lines = some d →
      locate lines marker = ⟨none, none, some d⟩ ∧ fallbackOk lines d = true ∧
      ∀ k, k < d → fallbackOk lines k = false) ∧
    (fallbackScan lines = none → locate lines marker = ⟨none, none, none⟩) := by
  constructor
  · intro d hd
    obtain ⟨_, h2, h3⟩ := firstFromAux_spec (fallbackOk lines) lines.length 0 d hd
    exact ⟨by simp [locate, hm, hd], h2, fun k hk => h3 k (Nat.zero_le k) hk⟩
  · intro hd
    simp [locate, hm, hd]

/-- Witness for C3: the Scenario B input has no marker hit and six
consecutive numeric lines, so the fallback reports data = 1 with header and
units absent. -/
theorem fallback_phase_spec_witness :
    locate scenarioB "[step]" = ⟨none, none, some 1⟩ ∧
    fallbackOk scenarioB 1 = true ∧ fallbackOk scenarioB 0 = false :=
  ⟨((fallback_phase_spec scenarioB "[step]" (by decide)).1 1 (by decide)).1,
    ((fallback_phase_spec scenarioB "[step]" (by decide)).1 1 (by decide)).2.1,
    ((fallback_phase_spec scenarioB "[step]" (by decide)).1 1 (by decide)).2.2 0 (by decide)⟩

/-- C7: the core communicates failure only through sentinels — a missing
data offset means the all-absent location, a present header forces the
(h, h+1, h+2) shape, and the Builder answers an absent data offset with
empty columns and an empty row list; every operation involved is a total
function of its arguments. -/
theorem core_total_sentinel (lines : List String) (marker : String) :
    ((locate lines marker).data = none → locate lines marker = ⟨none, none, none⟩) ∧
    (∀ h, (locate lines marker).header = some h →
      locate lines marker = ⟨some h, some (h + 1), some (h + 2)⟩) ∧
    (∀ loc : TableLocation, loc.data = none → harvest_rows lines loc = ([], [])) := by
  refine ⟨?_, ?_, ?_⟩
  · intro hd
    cases hm : markerPhaseResult lines marker with
    | some h => simp [locate, hm] at hd
    | none =>
      cases hf : fallbackScan lines with
      | some d => simp [locate, hm, hf] at hd
      | none => simp [locate, hm, hf]
  · intro h hh
    cases hm : markerPhaseResult lines marker with
    | some h2 =>
      have he : h2 = h := by simpa [locate, hm] using hh
      subst he
      simp [locate, hm]
    | none =>
      cases hf : fallbackScan lines with
      | some d => simp [locate, hm, hf] at hh
      | none => simp [locate, hm, hf] at hh
  · intro loc hd
    cases loc with
    | mk hh uu dd =>
      cases dd with
      | some d => simp at hd
      | none => simp [harvest_rows]

/-- Witness for C7: a metadata-only input locates as all-absent, and the
Builder on an all-absent location yields no columns and no rows. -/
theorem core_total_sentinel_witness :
    locate ["sample: 42", "operator"] "[step]" = ⟨none, none, none⟩ ∧
    harvest_rows ["sample: 42", "operator"] ⟨none, none, none⟩ = ([], []) :=
  ⟨(core_total_sentinel ["sample: 42", "operator"] "[step]").1 (by decide),
    (core_total_sentinel ["sample: 42", "operator"] "[step]").2.2 ⟨none, none, none⟩ rfl⟩

/-- C9: with GITHUB_USER or REPO_NAME unset or empty, the loader shows the
setup instructions and returns False; it never checks git, creates a
temporary directory, clones, or makes a network request. -/
theorem missing_env_shows_setup (env : Env) (w : World)
    (h : env.github_user = "" ∨ env.repo_name = "") :
    load_from_private_repo env w = (false, [Action.showSetup]) ∧
    Action.checkGit ∉ (load_from_private_repo env w).2 ∧
    Action.mkdtemp ∉ (load_from_private_repo env w).2 ∧
    Action.gitClone ∉ (load_from_private_repo env w).2 ∧
    Action.apiRequest ∉ (load_from_private_repo env w).2 := by
  have hb : (env.github_user = "" || env.repo_name = "") = true := by
    rcases h with h | h <;> simp [h]
  refine ⟨?_, ?_, ?_, ?_, ?_⟩ <;> simp [load_from_private_repo, hb]

/-- Witness for C9: an environment with GITHUB_USER set but REPO_NAME empty
takes the early exit. -/
theorem missing_env_shows_setup_witness :
    load_from_private_repo ⟨"tok", "MarioNunes35", ""⟩
      ⟨true, CloneRes.ok, CloneRes.ok, true, true, true⟩ =
      (false, [Action.showSetup]) :=
  (missing_env_shows_setup ⟨"tok", "MarioNunes35", ""⟩
    ⟨true, CloneRes.ok, CloneRes.ok, true, true, true⟩ (Or.inr rfl)).1

/-- C10: on every execution path of the loader that creates the temporary
clone directory, the finally-block removal also appears in the trace and no
temporary directory persists after the call. -/
theorem temp_dir_always_removed (env : Env) (w : World)
    (h : Action.mkdtemp ∈ (load_from_private_repo env w).2) :
    Action.removeTemp ∈ (load_from_private_repo env w).2 ∧
    tempAfter (load_from_private_repo env w).2 = false := by
  by_cases h1 : (env.github_user = "" || env.repo_name = "") = true
  · simp [load_from_private_repo, h1] at h
  · by_cases h2 : (!w.gitAvailable) = true
    · simp [load_from_private_repo, h1, h2, load_with_requests] at h
    · have htr : (load_from_private_repo env w).2 =
          (Action.checkGit :: Action.mkdtemp :: (tryBody env w).2) ++
            [Action.removeTemp] := by
        simp [load_from_private_repo, h1, h2]
      rw [htr, tempAfter_append_remove]
      simp

/-- Witness for C10: a run whose clone times out still removes the
temporary directory. -/
theorem temp_dir_always_removed_witness :
    Action.removeTemp ∈
      (load_from_private_repo ⟨"", "MarioNunes35", "TextCleaner"⟩
        ⟨true, CloneRes.timeout, CloneRes.ok, true, true, false⟩).2 ∧
    tempAfter
      (load_from_private_repo ⟨"", "MarioNunes35", "TextCleaner"⟩
        ⟨true, CloneRes.timeout, CloneRes.ok, true, true, false⟩).2 = false :=
  temp_dir_always_removed ⟨"", "MarioNunes35", "TextCleaner"⟩
    ⟨true, CloneRes.timeout, CloneRes.ok, true, true, false⟩ (by decide)

end Limpeza
